import Mathlib

/-!
Shallow embedding of `src/filelock/vendor/async_timeout.py` (the
deadline/cancellation primitive `Timeout`, vendored from async-timeout 4.0.3).

Modelling choices:

* Clock values (`loop.time()`, deadlines, delays) are rationals `ℚ`: the
  Python code only adds and compares these floats, and every claim is about
  the state machine, not float rounding.
* The event loop is modelled explicitly inside a `Sys` record:
  `loopSched` is the list of live (scheduled, not yet cancelled, not yet run)
  `_on_timeout` callbacks, identified by a fresh `Nat` id and tagged with how
  they were scheduled (`call_soon` vs `call_at deadline`);
  `cancelRequests` logs each `task.cancel()` the instance issues.
* Work units (asyncio tasks) are opaque `Nat` tokens; `asyncio.current_task()`
  and `loop.time()` are passed explicitly to the operations that read them.
* Exceptions: each operation returns `Sys × Option Err`.  On a raise the
  returned state holds exactly the mutations performed before the `raise`
  statement (for all operations but `_do_exit` that means: unchanged).
  Python `assert` failures are `Err.assertionError`.
-/

/-- Scheduling mode of a callback handle: `loop.call_soon` (runs in the
current event-loop iteration, no further tick needed) or
`loop.call_at t` (runs once the clock reaches `t`). -/
inductive HandleKind where
  | soon : HandleKind
  | at_time : ℚ → HandleKind
deriving DecidableEq, Repr

/-- `class _State(enum.Enum)` of the source. -/
inductive _State where
  | INIT : _State
  | ENTER : _State
  | TIMEOUT : _State
  | EXIT : _State
deriving DecidableEq, Repr

/-- `.value` of the enum members (used in error messages). -/
def _State.value : _State → String
  | .INIT => "INIT"
  | .ENTER => "ENTER"
  | .TIMEOUT => "TIMEOUT"
  | .EXIT => "EXIT"

/-- Exceptions raised by the source: `RuntimeError(msg)`,
`asyncio.TimeoutError`, and a failing `assert`. -/
inductive Err where
  | runtimeError : String → Err
  | timeoutError : Err
  | assertionError : Err
deriving DecidableEq, Repr

/-- The `__slots__` of `class Timeout` that belong to the object itself
(`_loop` is the ambient loop, modelled by `Sys`):
`_deadline`, `_state`, `_timeout_handler` (id of the scheduled handle, if
any), `_task` (back-reference to the work unit to cancel, if any). -/
structure Timeout where
  _deadline : Option ℚ
  _state : _State
  _timeout_handler : Option ℕ
  _task : Option ℕ
deriving DecidableEq, Repr

/-- One `Timeout` object together with its event loop: the live scheduled
callbacks, a fresh-id counter for handles, and the log of cancellation
requests issued to work units. -/
structure Sys where
  tm : Timeout
  loopSched : List (ℕ × HandleKind)
  nextId : ℕ
  cancelRequests : List ℕ
deriving DecidableEq, Repr

namespace Sys

/-- `handle.cancel()`: the handle (if live) is removed from the loop's
schedule and will never run. -/
def hCancel (id : ℕ) (s : Sys) : Sys :=
  { s with loopSched := s.loopSched.filter fun p => p.1 != id }

/-- `loop.call_soon(self._on_timeout)`: schedule an immediate callback,
returning the new state and the fresh handle id. -/
def call_soon (s : Sys) : Sys × ℕ :=
  ({ s with loopSched := s.loopSched ++ [(s.nextId, HandleKind.soon)],
            nextId := s.nextId + 1 }, s.nextId)

/-- `loop.call_at(deadline, self._on_timeout)`: schedule a callback at an
absolute time, returning the new state and the fresh handle id. -/
def call_at (d : ℚ) (s : Sys) : Sys × ℕ :=
  ({ s with loopSched := s.loopSched ++ [(s.nextId, HandleKind.at_time d)],
            nextId := s.nextId + 1 }, s.nextId)

end Sys

namespace Timeout

/-- `Timeout._reject`: drop the task back-reference and cancel the
scheduled firing if there is one. -/
def _reject (s : Sys) : Sys :=
  let s1 : Sys := { s with tm := { s.tm with _task := none } }
  match s1.tm._timeout_handler with
  | none => s1
  | some id =>
      let s2 := s1.hCancel id
      { s2 with tm := { s2.tm with _timeout_handler := none } }

/-- `Timeout.reject`: public rejection, only legal in `INIT` or `ENTER`. -/
def reject (s : Sys) : Sys × Option Err :=
  if s.tm._state = _State.INIT ∨ s.tm._state = _State.ENTER then
    (_reject s, none)
  else
    (s, some (Err.runtimeError ("invalid state " ++ s.tm._state.value)))

/-- `Timeout._reschedule` (reads `loop.time()` as `now` and
`asyncio.current_task()` as `tk`).  The leading `assert` of the source is
kept as an `assertionError` result. -/
def _reschedule (now : ℚ) (tk : ℕ) (s : Sys) : Sys × Option Err :=
  if s.tm._state ≠ _State.ENTER then (s, some Err.assertionError)
  else
    match s.tm._deadline with
    | none => (s, none)
    | some deadline =>
        let s1 : Sys :=
          match s.tm._timeout_handler with
          | some id => s.hCancel id
          | none => s
        let s2 : Sys := { s1 with tm := { s1.tm with _task := some tk } }
        if deadline ≤ now then
          let p := s2.call_soon
          ({ p.1 with tm := { p.1.tm with _timeout_handler := some p.2 } }, none)
        else
          let p := s2.call_at deadline
          ({ p.1 with tm := { p.1.tm with _timeout_handler := some p.2 } }, none)

/-- `Timeout.update`: set the deadline to an absolute value, cancelling any
previously scheduled firing; reschedules unless still in `INIT`. -/
def update (deadline : ℚ) (now : ℚ) (tk : ℕ) (s : Sys) : Sys × Option Err :=
  if s.tm._state = _State.EXIT then
    (s, some (Err.runtimeError "cannot reschedule after exit from context manager"))
  else if s.tm._state = _State.TIMEOUT then
    (s, some (Err.runtimeError "cannot reschedule expired timeout"))
  else
    let s1 : Sys :=
      match s.tm._timeout_handler with
      | some id => s.hCancel id
      | none => s
    let s2 : Sys := { s1 with tm := { s1.tm with _deadline := some deadline } }
    if s2.tm._state ≠ _State.INIT then _reschedule now tk s2 else (s2, none)

/-- `Timeout.shift`: advance the deadline by `delay`; fails if no deadline
was ever scheduled. -/
def shift (delay : ℚ) (now : ℚ) (tk : ℕ) (s : Sys) : Sys × Option Err :=
  match s.tm._deadline with
  | none =>
      (s, some (Err.runtimeError "cannot shift timeout if deadline is not scheduled"))
  | some deadline => update (deadline + delay) now tk s

/-- `Timeout._do_enter`: `INIT → ENTER` then reschedule. -/
def _do_enter (now : ℚ) (tk : ℕ) (s : Sys) : Sys × Option Err :=
  if s.tm._state ≠ _State.INIT then
    (s, some (Err.runtimeError ("invalid state " ++ s.tm._state.value)))
  else
    _reschedule now tk { s with tm := { s.tm with _state := _State.ENTER } }

/-- `Timeout._do_exit exc_type`: `cancelledExc` says whether the exiting
scope observed `asyncio.CancelledError`.  In the timed-out case the source
also calls `_uncancel_task` on the task, an effect on the work unit alone,
before dropping the references and raising `asyncio.TimeoutError`. -/
def _do_exit (cancelledExc : Bool) (s : Sys) : Sys × Option Err :=
  if cancelledExc = true ∧ s.tm._state = _State.TIMEOUT then
    match s.tm._task with
    | none => (s, some Err.assertionError)
    | some _ =>
        ({ s with tm := { s.tm with _timeout_handler := none, _task := none } },
         some Err.timeoutError)
  else
    (_reject { s with tm := { s.tm with _state := _State.EXIT } }, none)

/-- `Timeout._on_timeout`: the scheduled callback body — cancel the work
unit, mark `TIMEOUT`, drop the handle reference. -/
def _on_timeout (s : Sys) : Sys × Option Err :=
  match s.tm._task with
  | none => (s, some Err.assertionError)
  | some tk =>
      ({ s with cancelRequests := s.cancelRequests ++ [tk],
                tm := { s.tm with _state := _State.TIMEOUT,
                                  _timeout_handler := none } }, none)

/-- The event loop runs a scheduled callback: a handle that is live runs
`_on_timeout` (and is consumed); a cancelled or unknown handle never runs. -/
def fire (id : ℕ) (s : Sys) : Sys × Option Err :=
  if s.loopSched.any (fun p => p.1 = id) then _on_timeout (s.hCancel id)
  else (s, none)

/-- `Timeout.__init__(deadline, loop)`: fresh object in `INIT` on a fresh
loop; a non-`None` deadline is installed through `self.update(deadline)`. -/
def init (deadline : Option ℚ) (now : ℚ) (tk : ℕ) : Sys × Option Err :=
  let s : Sys :=
    { tm := { _deadline := none, _state := _State.INIT,
              _timeout_handler := none, _task := none },
      loopSched := [], nextId := 0, cancelRequests := [] }
  match deadline with
  | none => (s, none)
  | some d => update d now tk s

/-- `Timeout.expired` property. -/
def expired (s : Sys) : Bool :=
  s.tm._state = _State.TIMEOUT

end Timeout

/-- The operations a client (or the event loop) can perform on one
instance: the context-manager enter/exit, the public methods, and the loop
running a scheduled firing callback. -/
inductive Op where
  | enter : ℚ → ℕ → Op
  | update : ℚ → ℚ → ℕ → Op
  | shift : ℚ → ℚ → ℕ → Op
  | reject : Op
  | exit : Bool → Op
  | fire : ℕ → Op
deriving DecidableEq, Repr

/-- One step: the state after the operation (kept even when the operation
raises, as the Python object persists across exceptions) and the raised
exception, if any. -/
def Sys.step (op : Op) (s : Sys) : Sys × Option Err :=
  match op with
  | .enter now tk => Timeout._do_enter now tk s
  | .update d now tk => Timeout.update d now tk s
  | .shift d now tk => Timeout.shift d now tk s
  | .reject => Timeout.reject s
  | .exit c => Timeout._do_exit c s
  | .fire id => Timeout.fire id s

/-- States reachable from a freshly constructed instance by any sequence of
operations. -/
inductive Reachable : Sys → Prop where
  | base (d : Option ℚ) (now : ℚ) (tk : ℕ) : Reachable (Timeout.init d now tk).1
  | step (op : Op) {s : Sys} : Reachable s → Reachable (Sys.step op s).1

/-! ## Loop/handle invariant

At every reachable state: the live scheduled callbacks are exactly the ones
referenced by `_timeout_handler` (so at most one firing is ever scheduled),
a handle exists only while `ENTER` with a task back-reference installed, and
all issued handle ids are below the fresh-id counter. -/

def LoopInv (s : Sys) : Prop :=
  (∀ p ∈ s.loopSched, s.tm._timeout_handler = some p.1 ∧ p.1 < s.nextId) ∧
  s.loopSched.length ≤ 1 ∧
  (∀ id, s.tm._timeout_handler = some id →
    s.tm._state = _State.ENTER ∧ s.tm._task ≠ none ∧ id < s.nextId)

theorem sched_nil_of_handler_none {s : Sys}
    (h1 : ∀ p ∈ s.loopSched, s.tm._timeout_handler = some p.1 ∧ p.1 < s.nextId)
    (hh : s.tm._timeout_handler = none) : s.loopSched = [] := by
  cases hs : s.loopSched with
  | nil => rfl
  | cons a l =>
    have ha := (h1 a (by simp [hs])).1
    rw [hh] at ha
    cases ha

theorem filter_sched_nil {s : Sys} {id : ℕ}
    (h1 : ∀ p ∈ s.loopSched, s.tm._timeout_handler = some p.1 ∧ p.1 < s.nextId)
    (hh : s.tm._timeout_handler = some id) :
    s.loopSched.filter (fun p => p.1 != id) = [] := by
  apply List.filter_eq_nil_iff.mpr
  intro p hp
  have hp1 := (h1 p hp).1
  rw [hh] at hp1
  injection hp1 with hp1
  simp [hp1]

/-- Under the invariant's first clause, `_reject` always ends with no task,
no handle, and nothing scheduled. -/
theorem _reject_eq {s : Sys}
    (h1 : ∀ p ∈ s.loopSched, s.tm._timeout_handler = some p.1 ∧ p.1 < s.nextId) :
    Timeout._reject s =
      { s with tm := { s.tm with _task := none, _timeout_handler := none },
               loopSched := [] } := by
  obtain ⟨⟨dl, st, th, tk⟩, sched, nid, cr⟩ := s
  cases th with
  | none =>
    have hn : sched = [] := @sched_nil_of_handler_none ⟨⟨dl, st, none, tk⟩, sched, nid, cr⟩ h1 rfl
    simp [Timeout._reject, hn]
  | some id =>
    have hf := @filter_sched_nil ⟨⟨dl, st, some id, tk⟩, sched, nid, cr⟩ id h1 rfl
    simp only [] at hf
    simp [Timeout._reject, Sys.hCancel, hf]

/-- Under the invariant's first clause, in `ENTER` with a deadline set,
`_reschedule` installs exactly one fresh callback: immediate when the
deadline has passed, at the deadline otherwise. -/
theorem _reschedule_eq {s : Sys} {d : ℚ} (now : ℚ) (tk : ℕ)
    (h1 : ∀ p ∈ s.loopSched, s.tm._timeout_handler = some p.1 ∧ p.1 < s.nextId)
    (hst : s.tm._state = _State.ENTER) (hd : s.tm._deadline = some d) :
    Timeout._reschedule now tk s =
      ({ s with tm := { s.tm with _task := some tk, _timeout_handler := some s.nextId },
                loopSched := [(s.nextId, if d ≤ now then HandleKind.soon else HandleKind.at_time d)],
                nextId := s.nextId + 1 }, none) := by
  obtain ⟨⟨dl, st, th, tk0⟩, sched, nid, cr⟩ := s
  simp only [] at hst hd
  subst hst hd
  cases th with
  | none =>
    have hn : sched = [] :=
      @sched_nil_of_handler_none ⟨⟨some d, _State.ENTER, none, tk0⟩, sched, nid, cr⟩ h1 rfl
    by_cases hle : d ≤ now <;>
      simp [Timeout._reschedule, Sys.call_soon, Sys.call_at, hn, hle]
  | some id =>
    have hf :=
      @filter_sched_nil ⟨⟨some d, _State.ENTER, some id, tk0⟩, sched, nid, cr⟩ id h1 rfl
    simp only [] at hf
    by_cases hle : d ≤ now <;>
      simp [Timeout._reschedule, Sys.hCancel, Sys.call_soon, Sys.call_at, hf, hle]

theorem loopInv_of_cleared {dl : Option ℚ} {st : _State} {nid : ℕ} {cr : List ℕ} :
    LoopInv ⟨⟨dl, st, none, none⟩, [], nid, cr⟩ := by
  refine ⟨?_, ?_, ?_⟩ <;> simp [LoopInv]

theorem loopInv_reject {s : Sys} (h : LoopInv s) : LoopInv (Timeout.reject s).1 := by
  unfold Timeout.reject
  split
  · rw [_reject_eq h.1]
    obtain ⟨⟨dl, st, th, tk0⟩, sched, nid, cr⟩ := s
    exact loopInv_of_cleared
  · exact h

theorem loopInv_reschedule {s : Sys} (now : ℚ) (tk : ℕ) (h : LoopInv s) :
    LoopInv (Timeout._reschedule now tk s).1 := by
  by_cases hst : s.tm._state = _State.ENTER
  · cases hd : s.tm._deadline with
    | none =>
      unfold Timeout._reschedule
      simp [hst, hd]
      exact h
    | some d =>
      rw [_reschedule_eq now tk h.1 hst hd]
      refine ⟨?_, ?_, ?_⟩
      · intro p hp
        simp at hp
        simp [hp]
      · simp
      · intro id hid
        simp at hid
        simp [hid, hst]
  · unfold Timeout._reschedule
    simp [hst]
    exact h

theorem loopInv_update {s : Sys} (d now : ℚ) (tk : ℕ) (h : LoopInv s) :
    LoopInv (Timeout.update d now tk s).1 := by
  obtain ⟨⟨dl, st, th, tk0⟩, sched, nid, cr⟩ := s
  cases st with
  | EXIT => simpa [Timeout.update] using h
  | TIMEOUT => simpa [Timeout.update] using h
  | INIT =>
    cases th with
    | some id =>
      have := (h.2.2 id rfl).1
      simp only [] at this
      cases this
    | none =>
      simp only [Timeout.update]
      simp
      exact ⟨h.1, h.2.1, by intro id hid; cases hid⟩
  | ENTER =>
    cases th with
    | none =>
      simp only [Timeout.update]
      simp
      exact loopInv_reschedule now tk ⟨h.1, h.2.1, by intro id hid; cases hid⟩
    | some id =>
      have hf :=
        @filter_sched_nil ⟨⟨dl, _State.ENTER, some id, tk0⟩, sched, nid, cr⟩ id h.1 rfl
      simp only [] at hf
      simp only [Timeout.update]
      simp [Sys.hCancel, hf]
      refine loopInv_reschedule now tk ⟨by simp, by simp, ?_⟩
      intro j hj
      simp only [] at hj
      injection hj with hj
      subst hj
      exact ⟨rfl, (h.2.2 id rfl).2.1, (h.2.2 id rfl).2.2⟩

theorem loopInv_shift {s : Sys} (d now : ℚ) (tk : ℕ) (h : LoopInv s) :
    LoopInv (Timeout.shift d now tk s).1 := by
  unfold Timeout.shift
  cases hd : s.tm._deadline with
  | none => exact h
  | some dl => exact loopInv_update (dl + d) now tk h

theorem loopInv_do_enter {s : Sys} (now : ℚ) (tk : ℕ) (h : LoopInv s) :
    LoopInv (Timeout._do_enter now tk s).1 := by
  obtain ⟨⟨dl, st, th, tk0⟩, sched, nid, cr⟩ := s
  cases st with
  | ENTER => simpa [Timeout._do_enter] using h
  | TIMEOUT => simpa [Timeout._do_enter] using h
  | EXIT => simpa [Timeout._do_enter] using h
  | INIT =>
    cases th with
    | some id =>
      have := (h.2.2 id rfl).1
      simp only [] at this
      cases this
    | none =>
      simp only [Timeout._do_enter]
      simp
      exact loopInv_reschedule now tk ⟨h.1, h.2.1, by intro id hid; cases hid⟩

theorem loopInv_do_exit {s : Sys} (c : Bool) (h : LoopInv s) :
    LoopInv (Timeout._do_exit c s).1 := by
  obtain ⟨⟨dl, st, th, tk0⟩, sched, nid, cr⟩ := s
  by_cases hc : c = true ∧ st = _State.TIMEOUT
  · obtain ⟨hc1, hc2⟩ := hc
    subst hc1 hc2
    have hth : th = none := by
      cases th with
      | none => rfl
      | some id =>
        have := (h.2.2 id rfl).1
        simp only [] at this
        cases this
    subst hth
    have hn : sched = [] :=
      @sched_nil_of_handler_none ⟨⟨dl, _State.TIMEOUT, none, tk0⟩, sched, nid, cr⟩ h.1 rfl
    subst hn
    cases tk0 with
    | none => simpa [Timeout._do_exit] using h
    | some t =>
      simp [Timeout._do_exit]
      exact ⟨by simp, by simp, by intro id hid; cases hid⟩
  · have hrw : Timeout._do_exit c ⟨⟨dl, st, th, tk0⟩, sched, nid, cr⟩ =
        (Timeout._reject ⟨⟨dl, _State.EXIT, th, tk0⟩, sched, nid, cr⟩, none) := by
      simp only [Timeout._do_exit]
      simp [hc]
    rw [hrw, @_reject_eq ⟨⟨dl, _State.EXIT, th, tk0⟩, sched, nid, cr⟩ h.1]
    exact loopInv_of_cleared

theorem loopInv_fire {s : Sys} (id : ℕ) (h : LoopInv s) :
    LoopInv (Timeout.fire id s).1 := by
  unfold Timeout.fire
  by_cases hl : s.loopSched.any (fun p => p.1 = id) = true
  · simp only [hl, if_pos]
    obtain ⟨p, hp, hpid⟩ := List.any_eq_true.mp hl
    simp only [decide_eq_true_eq] at hpid
    have hth : s.tm._timeout_handler = some id := by
      have := (h.1 p hp).1
      rw [this, hpid]
    have htk : s.tm._task ≠ none := (h.2.2 id hth).2.1
    have hf := filter_sched_nil h.1 hth
    obtain ⟨⟨dl, st, th, tk0⟩, sched, nid, cr⟩ := s
    cases tk0 with
    | none => exact absurd rfl htk
    | some t =>
      simp only [] at hf
      simp [Timeout._on_timeout, Sys.hCancel, hf]
      exact ⟨by simp, by simp, by intro j hj; cases hj⟩
  · simp [hl]
    exact h

theorem loopInv_step {s : Sys} (op : Op) (h : LoopInv s) :
    LoopInv (Sys.step op s).1 := by
  cases op with
  | enter now tk => exact loopInv_do_enter now tk h
  | update d now tk => exact loopInv_update d now tk h
  | shift d now tk => exact loopInv_shift d now tk h
  | reject => exact loopInv_reject h
  | exit c => exact loopInv_do_exit c h
  | fire id => exact loopInv_fire id h

theorem loopInv_init (d : Option ℚ) (now : ℚ) (tk : ℕ) :
    LoopInv (Timeout.init d now tk).1 := by
  cases d with
  | none => exact ⟨by simp [Timeout.init], by simp [Timeout.init], by intro id hid; cases hid⟩
  | some dl =>
    simp [Timeout.init, Timeout.update]
    exact ⟨by simp, by simp, by intro id hid; cases hid⟩

/-- Every reachable state satisfies the loop/handle invariant. -/
theorem reachable_loopInv {s : Sys} (h : Reachable s) : LoopInv s := by
  induction h with
  | base d now tk => exact loopInv_init d now tk
  | step op hs ih => exact loopInv_step op ih

/-! ## What each operation does to the `_state` field -/

theorem state_reschedule (now : ℚ) (tk : ℕ) (s : Sys) :
    (Timeout._reschedule now tk s).1.tm._state = s.tm._state := by
  obtain ⟨⟨dl, st, th, tk0⟩, sched, nid, cr⟩ := s
  cases dl <;> cases th <;>
    simp [Timeout._reschedule, Sys.hCancel, Sys.call_soon, Sys.call_at] <;>
    split_ifs <;> simp

theorem state_update (d now : ℚ) (tk : ℕ) (s : Sys) :
    (Timeout.update d now tk s).1.tm._state = s.tm._state := by
  obtain ⟨⟨dl, st, th, tk0⟩, sched, nid, cr⟩ := s
  cases st <;> cases th <;>
    simp [Timeout.update, Sys.hCancel] <;>
    rw [state_reschedule]

theorem state_shift (d now : ℚ) (tk : ℕ) (s : Sys) :
    (Timeout.shift d now tk s).1.tm._state = s.tm._state := by
  unfold Timeout.shift
  cases hd : s.tm._deadline with
  | none => rfl
  | some dl => exact state_update (dl + d) now tk s

theorem state_reject (s : Sys) :
    (Timeout.reject s).1.tm._state = s.tm._state := by
  obtain ⟨⟨dl, st, th, tk0⟩, sched, nid, cr⟩ := s
  cases th <;> simp [Timeout.reject, Timeout._reject, Sys.hCancel] <;> split_ifs <;> simp

theorem state_enter_of_INIT (now : ℚ) (tk : ℕ) (s : Sys) (h : s.tm._state = _State.INIT) :
    (Timeout._do_enter now tk s).1.tm._state = _State.ENTER := by
  unfold Timeout._do_enter
  rw [if_neg (by simp [h])]
  rw [state_reschedule]

theorem state_enter_of_not_INIT (now : ℚ) (tk : ℕ) (s : Sys) (h : s.tm._state ≠ _State.INIT) :
    (Timeout._do_enter now tk s).1.tm._state = s.tm._state := by
  unfold Timeout._do_enter
  rw [if_pos h]

theorem state_exit (c : Bool) (s : Sys) :
    (Timeout._do_exit c s).1.tm._state =
      if c = true ∧ s.tm._state = _State.TIMEOUT then s.tm._state else _State.EXIT := by
  obtain ⟨⟨dl, st, th, tk0⟩, sched, nid, cr⟩ := s
  by_cases hc : c = true ∧ st = _State.TIMEOUT
  · have hc2 := hc.2
    cases tk0 <;> simp [Timeout._do_exit, hc, hc2]
  · cases th <;>
      simp [Timeout._do_exit, Timeout._reject, Sys.hCancel, hc]

theorem state_fire (id : ℕ) (s : Sys) :
    (Timeout.fire id s).1.tm._state = s.tm._state ∨
      (Timeout.fire id s).1.tm._state = _State.TIMEOUT := by
  obtain ⟨⟨dl, st, th, tk0⟩, sched, nid, cr⟩ := s
  unfold Timeout.fire
  split
  · cases tk0 <;> simp [Timeout._on_timeout, Sys.hCancel]
  · left; rfl

/-- Under the invariant, a `fire` that changes the phase comes from `ENTER`
and lands in `TIMEOUT`. -/
theorem fire_change {s : Sys} (id : ℕ) (h : LoopInv s)
    (hne : (Timeout.fire id s).1.tm._state ≠ s.tm._state) :
    s.tm._state = _State.ENTER ∧ (Timeout.fire id s).1.tm._state = _State.TIMEOUT := by
  by_cases hl : s.loopSched.any (fun p => p.1 = id) = true
  · obtain ⟨p, hp, hpid⟩ := List.any_eq_true.mp hl
    simp only [decide_eq_true_eq] at hpid
    have hth : s.tm._timeout_handler = some id := by
      have h1 := (h.1 p hp).1
      rw [h1, hpid]
    have hst := (h.2.2 id hth).1
    refine ⟨hst, ?_⟩
    rcases state_fire id s with he | ht
    · exact absurd he hne
    · exact ht
  · exfalso
    apply hne
    unfold Timeout.fire
    rw [if_neg hl]

/-- How one operation may move the phase: the allowed edges of the
lifecycle diagram. -/
def PhaseEvolution (s : Sys) (op : Op) (t : Sys) : Prop :=
  (t.tm._state = _State.ENTER → s.tm._state ≠ _State.ENTER →
      s.tm._state = _State.INIT ∧ ∃ now tk, op = Op.enter now tk) ∧
  (t.tm._state = _State.TIMEOUT → s.tm._state ≠ _State.TIMEOUT →
      s.tm._state = _State.ENTER ∧ ∃ id, op = Op.fire id) ∧
  (t.tm._state = _State.EXIT → s.tm._state ≠ _State.EXIT →
      (s.tm._state = _State.INIT ∨ s.tm._state = _State.ENTER ∨
        s.tm._state = _State.TIMEOUT) ∧ ∃ c, op = Op.exit c) ∧
  (s.tm._state = _State.EXIT → t.tm._state = _State.EXIT) ∧
  (s.tm._state = _State.TIMEOUT →
      t.tm._state = _State.TIMEOUT ∨ ∃ c, op = Op.exit c) ∧
  (t.tm._state ≠ s.tm._state → t.tm._state ≠ _State.INIT)

theorem phaseEvolution_of_eq {s t : Sys} (op : Op)
    (he : t.tm._state = s.tm._state) : PhaseEvolution s op t := by
  refine ⟨?_, ?_, ?_, ?_, ?_, ?_⟩
  · intro h1 h2; exact absurd (he ▸ h1) h2
  · intro h1 h2; exact absurd (he ▸ h1) h2
  · intro h1 h2; exact absurd (he ▸ h1) h2
  · intro h1; rw [he]; exact h1
  · intro h1; left; rw [he]; exact h1
  · intro h1; exact absurd he h1

/-- C2 (amended): on every reachable state, each operation respects the
lifecycle `INIT → ENTER → {TIMEOUT, EXIT}` extended with the edge
`INIT → EXIT` taken by an exit without a prior enter: `ENTER` is reached
only from `INIT` by `enter`; `TIMEOUT` only from `ENTER` by the firing
callback; `EXIT` only from `INIT`, `ENTER` or `TIMEOUT` and only by `exit`;
nothing leaves `EXIT`, and only `exit` leaves `TIMEOUT`. -/
theorem C2_phase_machine {s : Sys} (h : Reachable s) (op : Op) :
    PhaseEvolution s op (Sys.step op s).1 := by
  have hInv := reachable_loopInv h
  cases op with
  | update d now tk => exact phaseEvolution_of_eq _ (state_update d now tk s)
  | shift d now tk => exact phaseEvolution_of_eq _ (state_shift d now tk s)
  | reject => exact phaseEvolution_of_eq _ (state_reject s)
  | enter now tk =>
    by_cases hI : s.tm._state = _State.INIT
    · have hE := state_enter_of_INIT now tk s hI
      refine ⟨?_, ?_, ?_, ?_, ?_, ?_⟩
      · intro _ _; exact ⟨hI, now, tk, rfl⟩
      · intro h1 _; rw [Sys.step] at h1; rw [h1] at hE; cases hE
      · intro h1 _; rw [Sys.step] at h1; rw [h1] at hE; cases hE
      · intro h1; rw [hI] at h1; cases h1
      · intro h1; rw [hI] at h1; cases h1
      · intro _; rw [Sys.step, hE]; intro hx; cases hx
    · exact phaseEvolution_of_eq _ (state_enter_of_not_INIT now tk s hI)
  | exit c =>
    by_cases hc : c = true ∧ s.tm._state = _State.TIMEOUT
    · have he : (Sys.step (Op.exit c) s).1.tm._state = s.tm._state := by
        rw [Sys.step, state_exit, if_pos hc]
      exact phaseEvolution_of_eq _ he
    · have hE : (Sys.step (Op.exit c) s).1.tm._state = _State.EXIT := by
        rw [Sys.step, state_exit, if_neg hc]
      refine ⟨?_, ?_, ?_, ?_, ?_, ?_⟩
      · intro h1 _; rw [h1] at hE; cases hE
      · intro h1 _; rw [h1] at hE; cases hE
      · intro _ h2
        refine ⟨?_, c, rfl⟩
        cases hs : s.tm._state with
        | INIT => left; rfl
        | ENTER => right; left; rfl
        | TIMEOUT => right; right; rfl
        | EXIT => exact absurd hs h2
      · intro _; exact hE
      · intro _; right; exact ⟨c, rfl⟩
      · intro _; rw [hE]; intro hx; cases hx
  | fire id =>
    by_cases hch : (Timeout.fire id s).1.tm._state = s.tm._state
    · exact phaseEvolution_of_eq _ hch
    · obtain ⟨hEN, hTO⟩ := fire_change id hInv hch
      refine ⟨?_, ?_, ?_, ?_, ?_, ?_⟩
      · intro h1 _; rw [Sys.step] at h1; rw [h1] at hTO; cases hTO
      · intro _ _; exact ⟨hEN, id, rfl⟩
      · intro h1 _; rw [Sys.step] at h1; rw [h1] at hTO; cases hTO
      · intro h1; rw [hEN] at h1; cases h1
      · intro h1; rw [hEN] at h1; cases h1
      · intro _; rw [Sys.step, hTO]; intro hx; cases hx

/-- C2 counterexample to the claim as stated: from a freshly constructed
(reachable) instance still in `INIT`, the exit operation moves the phase
straight to `EXIT` (CLOSED) — so CLOSED is also reachable from `INIT`, not
only from `ARMED` or `FIRED`. -/
theorem C2_counterexample :
    Reachable (Timeout.init none 0 0).1 ∧
    (Timeout.init none 0 0).1.tm._state = _State.INIT ∧
    (Sys.step (Op.exit false) (Timeout.init none 0 0).1).1.tm._state = _State.EXIT ∧
    (Sys.step (Op.exit false) (Timeout.init none 0 0).1).2 = none :=
  ⟨Reachable.base none 0 0, rfl, rfl, rfl⟩

theorem C2_phase_machine_witness :
    PhaseEvolution (Timeout.init (some 5) 0 0).1 (Op.enter 1 7)
      (Sys.step (Op.enter 1 7) (Timeout.init (some 5) 0 0).1).1 :=
  C2_phase_machine (Reachable.base (some 5) 0 0) (Op.enter 1 7)

/-- In `ENTER`, `_reschedule` never raises. -/
theorem err_reschedule (now : ℚ) (tk : ℕ) (s : Sys) (h : s.tm._state = _State.ENTER) :
    (Timeout._reschedule now tk s).2 = none := by
  obtain ⟨⟨dl, st, th, tk0⟩, sched, nid, cr⟩ := s
  simp only [] at h
  subst h
  cases dl <;> cases th <;>
    simp [Timeout._reschedule, Sys.hCancel, Sys.call_soon, Sys.call_at] <;>
    split_ifs <;> simp

/-- C1: `_do_exit` with an observed cancellation in `TIMEOUT` (with the
back-reference to the cancelled work unit present) raises `TimeoutError`
instead and clears the back-reference; in every other case it moves to
`EXIT` and disarms a pending firing, disarming being a no-op when nothing
is scheduled. -/
theorem C1_exit_spec (s : Sys) (c : Bool) :
    (c = true → s.tm._state = _State.TIMEOUT → s.tm._task ≠ none →
      Timeout._do_exit c s =
        ({ s with tm := { s.tm with _timeout_handler := none, _task := none } },
         some Err.timeoutError)) ∧
    (c = false ∨ s.tm._state ≠ _State.TIMEOUT →
      (Timeout._do_exit c s).2 = none ∧
      (Timeout._do_exit c s).1.tm._state = _State.EXIT ∧
      (Timeout._do_exit c s).1.tm._task = none ∧
      (Timeout._do_exit c s).1.tm._timeout_handler = none ∧
      (∀ id, s.tm._timeout_handler = some id →
          (Timeout._do_exit c s).1.loopSched =
            s.loopSched.filter (fun p => p.1 != id)) ∧
      (s.tm._timeout_handler = none →
          (Timeout._do_exit c s).1.loopSched = s.loopSched)) := by
  obtain ⟨⟨dl, st, th, tk0⟩, sched, nid, cr⟩ := s
  constructor
  · intro hc hst htk
    subst hc
    simp only [] at hst htk
    subst hst
    cases tk0 with
    | none => exact absurd rfl htk
    | some t => simp [Timeout._do_exit]
  · intro hc
    have hcc : ¬(c = true ∧ st = _State.TIMEOUT) := by
      rcases hc with hc | hc
      · subst hc; simp
      · simp only [] at hc
        intro hx
        exact hc hx.2
    cases th with
    | none => simp [Timeout._do_exit, hcc, Timeout._reject]
    | some id => simp [Timeout._do_exit, hcc, Timeout._reject, Sys.hCancel]

theorem C1_exit_spec_witness :
    (Timeout._do_exit true ⟨⟨some 5, _State.TIMEOUT, none, some 7⟩, [], 1, [7]⟩ =
      (⟨⟨some 5, _State.TIMEOUT, none, none⟩, [], 1, [7]⟩, some Err.timeoutError)) ∧
    (Timeout._do_exit false ⟨⟨some 5, _State.ENTER, some 0, some 7⟩,
        [(0, HandleKind.at_time 5)], 1, []⟩).1.tm._state = _State.EXIT :=
  ⟨(C1_exit_spec ⟨⟨some 5, _State.TIMEOUT, none, some 7⟩, [], 1, [7]⟩ true).1 rfl rfl
      (by decide),
   ((C1_exit_spec ⟨⟨some 5, _State.ENTER, some 0, some 7⟩,
        [(0, HandleKind.at_time 5)], 1, []⟩ false).2 (Or.inl rfl)).2.1⟩

/-- C3: `update` raises exactly when the phase is `EXIT` (CLOSED) or
`TIMEOUT` (FIRED); any previously live firing is cancelled (its handle is
no longer scheduled afterwards), and at no reachable point — before or
after the call — is more than one firing scheduled. -/
theorem C3_update_spec {s : Sys} (h : Reachable s) (d now : ℚ) (tk : ℕ) :
    ((Timeout.update d now tk s).2 ≠ none ↔
        (s.tm._state = _State.EXIT ∨ s.tm._state = _State.TIMEOUT)) ∧
    (∀ id, id ∈ s.loopSched.map Prod.fst →
        id ∉ (Timeout.update d now tk s).1.loopSched.map Prod.fst) ∧
    s.loopSched.length ≤ 1 ∧
    (Timeout.update d now tk s).1.loopSched.length ≤ 1 := by
  have hInv := reachable_loopInv h
  refine ⟨?_, ?_, hInv.2.1, (loopInv_update d now tk hInv).2.1⟩
  · obtain ⟨⟨dl, st, th, tk0⟩, sched, nid, cr⟩ := s
    cases st with
    | EXIT => simp [Timeout.update]
    | TIMEOUT => simp [Timeout.update]
    | INIT => cases th <;> simp [Timeout.update, Sys.hCancel]
    | ENTER =>
      have hok : (Timeout.update d now tk
          ⟨⟨dl, _State.ENTER, th, tk0⟩, sched, nid, cr⟩).2 = none := by
        cases th <;> simp [Timeout.update, Sys.hCancel] <;>
          exact err_reschedule now tk _ rfl
      simp [hok]
  · intro id hid
    obtain ⟨p, hp, hpid⟩ := List.mem_map.mp hid
    have hth : s.tm._timeout_handler = some id := by
      rw [(hInv.1 p hp).1, hpid]
    have hEN := (hInv.2.2 id hth).1
    have hlt := (hInv.2.2 id hth).2.2
    have hf := filter_sched_nil hInv.1 hth
    obtain ⟨⟨dl, st, th, tk0⟩, sched, nid, cr⟩ := s
    simp only [] at hth hEN hf hlt
    subst hEN hth
    simp [Timeout.update, Sys.hCancel, hf]
    rw [@_reschedule_eq ⟨⟨some d, _State.ENTER, some id, tk0⟩, [], nid, cr⟩ d now tk
        (by simp) rfl rfl]
    simp
    omega

theorem C3_update_spec_witness :
    (Timeout.update 20 1 7
        (Sys.step (Op.enter 1 7) (Timeout.init (some 5) 0 0).1).1).1.loopSched.length ≤ 1 ∧
    0 ∉ (Timeout.update 20 1 7
        (Sys.step (Op.enter 1 7) (Timeout.init (some 5) 0 0).1).1).1.loopSched.map Prod.fst :=
  ⟨(C3_update_spec (Reachable.step (Op.enter 1 7) (Reachable.base (some 5) 0 0)) 20 1 7).2.2.2,
   (C3_update_spec (Reachable.step (Op.enter 1 7) (Reachable.base (some 5) 0 0)) 20 1 7).2.1 0
      (by decide)⟩

/-- C4: `enter` raises exactly when the phase is not `INIT`, on success the
phase becomes `ENTER` (ARMED), and no operation ever returns the phase to
`INIT` — so one instance can be entered at most once and never reused. -/
theorem C4_enter_spec :
    (∀ (s : Sys) (now : ℚ) (tk : ℕ),
        (Timeout._do_enter now tk s).2 ≠ none ↔ s.tm._state ≠ _State.INIT) ∧
    (∀ (s : Sys) (now : ℚ) (tk : ℕ), s.tm._state = _State.INIT →
        (Timeout._do_enter now tk s).1.tm._state = _State.ENTER) ∧
    (∀ (s : Sys) (op : Op), s.tm._state ≠ _State.INIT →
        (Sys.step op s).1.tm._state ≠ _State.INIT) := by
  refine ⟨?_, ?_, ?_⟩
  · intro s now tk
    by_cases hI : s.tm._state = _State.INIT
    · have : (Timeout._do_enter now tk s).2 = none := by
        unfold Timeout._do_enter
        rw [if_neg (by simp [hI])]
        exact err_reschedule now tk _ (by simp [hI])
      simp [this, hI]
    · unfold Timeout._do_enter
      rw [if_pos hI]
      simp [hI]
  · intro s now tk hI
    exact state_enter_of_INIT now tk s hI
  · intro s op h
    cases op with
    | enter now tk =>
      simp only [Sys.step]
      rw [state_enter_of_not_INIT now tk s h]
      exact h
    | update d now tk => simp only [Sys.step]; rw [state_update]; exact h
    | shift d now tk => simp only [Sys.step]; rw [state_shift]; exact h
    | reject => simp only [Sys.step]; rw [state_reject]; exact h
    | exit c =>
      simp only [Sys.step]
      rw [state_exit]
      split_ifs
      · exact h
      · intro hx; cases hx
    | fire id =>
      simp only [Sys.step]
      rcases state_fire id s with he | ht
      · rw [he]; exact h
      · rw [ht]; intro hx; cases hx

theorem C4_enter_spec_witness :
    ((Timeout._do_enter 1 7 (Timeout.init (some 5) 0 0).1).2 ≠ none ↔
        (Timeout.init (some 5) 0 0).1.tm._state ≠ _State.INIT) ∧
    (Timeout._do_enter 1 7 (Timeout.init (some 5) 0 0).1).1.tm._state = _State.ENTER ∧
    (Sys.step Op.reject
        (Timeout._do_enter 1 7 (Timeout.init (some 5) 0 0).1).1).1.tm._state ≠ _State.INIT :=
  ⟨C4_enter_spec.1 (Timeout.init (some 5) 0 0).1 1 7,
   C4_enter_spec.2.1 (Timeout.init (some 5) 0 0).1 1 7 rfl,
   C4_enter_spec.2.2 (Timeout._do_enter 1 7 (Timeout.init (some 5) 0 0).1).1 Op.reject
      (by decide)⟩

/-- C5: `reject` raises exactly when the phase is neither `INIT` nor
`ENTER`; on success it clears the work-unit back-reference and cancels the
scheduled firing while leaving phase and deadline untouched. -/
theorem C5_reject_spec (s : Sys) :
    ((Timeout.reject s).2 ≠ none ↔
        (s.tm._state ≠ _State.INIT ∧ s.tm._state ≠ _State.ENTER)) ∧
    (s.tm._state = _State.INIT ∨ s.tm._state = _State.ENTER →
      (Timeout.reject s).1.tm._state = s.tm._state ∧
      (Timeout.reject s).1.tm._task = none ∧
      (Timeout.reject s).1.tm._timeout_handler = none ∧
      (∀ id, s.tm._timeout_handler = some id →
          id ∉ (Timeout.reject s).1.loopSched.map Prod.fst) ∧
      (Timeout.reject s).1.tm._deadline = s.tm._deadline) := by
  obtain ⟨⟨dl, st, th, tk0⟩, sched, nid, cr⟩ := s
  constructor
  · cases st <;> cases th <;>
      simp [Timeout.reject, Timeout._reject, Sys.hCancel]
  · intro hst
    have hok : st = _State.INIT ∨ st = _State.ENTER := hst
    cases th with
    | none => simp [Timeout.reject, Timeout._reject, hok]
    | some id =>
      simp [Timeout.reject, Timeout._reject, Sys.hCancel, hok]

theorem C5_reject_spec_witness :
    ((Timeout.reject (Timeout.init (some 5) 0 0).1).2 ≠ none ↔
        ((Timeout.init (some 5) 0 0).1.tm._state ≠ _State.INIT ∧
         (Timeout.init (some 5) 0 0).1.tm._state ≠ _State.ENTER)) ∧
    (Timeout.reject (Timeout.init (some 5) 0 0).1).1.tm._state =
      (Timeout.init (some 5) 0 0).1.tm._state ∧
    (Timeout.reject (Timeout.init (some 5) 0 0).1).1.tm._task = none :=
  ⟨(C5_reject_spec (Timeout.init (some 5) 0 0).1).1,
   ((C5_reject_spec (Timeout.init (some 5) 0 0).1).2 (Or.inl rfl)).1,
   ((C5_reject_spec (Timeout.init (some 5) 0 0).1).2 (Or.inl rfl)).2.1⟩

/-- C6: with a deadline `d` set, `shift delay` is literally
`update (d + delay)` — same resulting state, same raised error; with no
deadline ever set it raises and changes nothing. -/
theorem C6_shift_spec (s : Sys) (delay now : ℚ) (tk : ℕ) :
    (∀ d, s.tm._deadline = some d →
        Timeout.shift delay now tk s = Timeout.update (d + delay) now tk s) ∧
    (s.tm._deadline = none →
        Timeout.shift delay now tk s =
          (s, some (Err.runtimeError
            "cannot shift timeout if deadline is not scheduled"))) := by
  constructor
  · intro d hd
    unfold Timeout.shift
    rw [hd]
  · intro hd
    unfold Timeout.shift
    rw [hd]

theorem C6_shift_spec_witness :
    Timeout.shift 3 1 7 (Timeout.init (some 5) 0 0).1 =
      Timeout.update 8 1 7 (Timeout.init (some 5) 0 0).1 ∧
    Timeout.shift 3 1 7 (Timeout.init none 0 0).1 =
      ((Timeout.init none 0 0).1, some (Err.runtimeError
        "cannot shift timeout if deadline is not scheduled")) := by
  constructor
  · have h := (C6_shift_spec (Timeout.init (some 5) 0 0).1 3 1 7).1 5 rfl
    have h8 : (5 + 3 : ℚ) = 8 := by norm_num
    rw [h8] at h
    exact h
  · exact (C6_shift_spec (Timeout.init none 0 0).1 3 1 7).2 rfl

/-- C7: entering with an already-passed deadline schedules the firing with
`call_soon` — it runs in the current event-loop iteration, no further tick
— and running it cancels the work unit and marks the phase `TIMEOUT`. -/
theorem C7_enter_past_deadline {s : Sys} (h : Reachable s) (d now : ℚ) (tk : ℕ)
    (hI : s.tm._state = _State.INIT) (hd : s.tm._deadline = some d) (hle : d ≤ now) :
    (Timeout._do_enter now tk s).2 = none ∧
    (Timeout._do_enter now tk s).1.tm._timeout_handler = some s.nextId ∧
    (Timeout._do_enter now tk s).1.loopSched = [(s.nextId, HandleKind.soon)] ∧
    (Sys.step (Op.fire s.nextId) (Timeout._do_enter now tk s).1).1.tm._state =
      _State.TIMEOUT ∧
    tk ∈ (Sys.step (Op.fire s.nextId)
        (Timeout._do_enter now tk s).1).1.cancelRequests := by
  have hInv := reachable_loopInv h
  have hth : s.tm._timeout_handler = none := by
    cases hth2 : s.tm._timeout_handler with
    | none => rfl
    | some id =>
      have hEN := (hInv.2.2 id hth2).1
      rw [hI] at hEN
      cases hEN
  have hn : s.loopSched = [] := sched_nil_of_handler_none hInv.1 hth
  obtain ⟨⟨dl, st, th, tk0⟩, sched, nid, cr⟩ := s
  simp only [] at hI hd hth hn
  subst hI hd hth hn
  simp only [Timeout._do_enter]
  simp
  rw [@_reschedule_eq ⟨⟨some d, _State.ENTER, none, tk0⟩, [], nid, cr⟩ d now tk
      (by simp) rfl rfl]
  simp [hle, Sys.step, Timeout.fire, Sys.hCancel, Timeout._on_timeout]

theorem C7_enter_past_deadline_witness :
    (Timeout._do_enter 10 7 (Timeout.init (some 5) 0 0).1).2 = none ∧
    (Timeout._do_enter 10 7 (Timeout.init (some 5) 0 0).1).1.tm._timeout_handler =
      some (Timeout.init (some 5) 0 0).1.nextId ∧
    (Timeout._do_enter 10 7 (Timeout.init (some 5) 0 0).1).1.loopSched =
      [((Timeout.init (some 5) 0 0).1.nextId, HandleKind.soon)] ∧
    (Sys.step (Op.fire (Timeout.init (some 5) 0 0).1.nextId)
        (Timeout._do_enter 10 7 (Timeout.init (some 5) 0 0).1).1).1.tm._state =
      _State.TIMEOUT ∧
    7 ∈ (Sys.step (Op.fire (Timeout.init (some 5) 0 0).1.nextId)
        (Timeout._do_enter 10 7 (Timeout.init (some 5) 0 0).1).1).1.cancelRequests :=
  C7_enter_past_deadline (Reachable.base (some 5) 0 0) 5 10 7 rfl rfl (by norm_num)

/-- Sequences of operations on an instance constructed without a deadline
that never set one (no `update` call anywhere in the trace). -/
inductive NoDeadlineReach : Sys → Prop where
  | base (now : ℚ) (tk : ℕ) : NoDeadlineReach (Timeout.init none now tk).1
  | step (op : Op) {s : Sys} (h : ∀ d now tk, op ≠ Op.update d now tk) :
      NoDeadlineReach s → NoDeadlineReach (Sys.step op s).1

/-- C8: with no deadline ever set, the instance never fires: the phase is
never `TIMEOUT`, no callback is ever scheduled, and no work unit is ever
cancelled by this instance. -/
theorem C8_no_deadline_never_fires {s : Sys} (h : NoDeadlineReach s) :
    s.tm._deadline = none ∧ s.tm._state ≠ _State.TIMEOUT ∧
    s.tm._timeout_handler = none ∧ s.loopSched = [] ∧
    s.cancelRequests = [] := by
  induction h with
  | base now tk => exact ⟨rfl, by simp [Timeout.init], rfl, rfl, rfl⟩
  | step op hop hs ih =>
    obtain ⟨hdl, hst, hth, hsc, hcr⟩ := ih
    rename_i t
    obtain ⟨⟨dl, st, th, tk0⟩, sched, nid, cr⟩ := t
    simp only [] at hdl hst hth hsc hcr
    subst hdl hth hsc hcr
    cases op with
    | update d now tk => exact absurd rfl (hop d now tk)
    | enter now tk =>
      by_cases hI : st = _State.INIT
      · subst hI
        simp [Sys.step, Timeout._do_enter, Timeout._reschedule]
      · simp [Sys.step, Timeout._do_enter, hI, hst]
    | shift d now tk =>
      simp [Sys.step, Timeout.shift, hst]
    | reject =>
      by_cases hok : st = _State.INIT ∨ st = _State.ENTER
      · simp [Sys.step, Timeout.reject, Timeout._reject, hok, hst]
      · simp [Sys.step, Timeout.reject, Timeout._reject, hok, hst]
    | exit c =>
      have hcc : ¬(c = true ∧ st = _State.TIMEOUT) := by
        intro hx
        exact hst hx.2
      simp [Sys.step, Timeout._do_exit, Timeout._reject, hcc]
    | fire id =>
      simp [Sys.step, Timeout.fire, hst]

theorem C8_no_deadline_never_fires_witness :
    (Sys.step (Op.enter 1 7) (Timeout.init none 0 0).1).1.tm._deadline = none ∧
    (Sys.step (Op.enter 1 7) (Timeout.init none 0 0).1).1.tm._state ≠ _State.TIMEOUT ∧
    (Sys.step (Op.enter 1 7) (Timeout.init none 0 0).1).1.tm._timeout_handler = none ∧
    (Sys.step (Op.enter 1 7) (Timeout.init none 0 0).1).1.loopSched = [] ∧
    (Sys.step (Op.enter 1 7) (Timeout.init none 0 0).1).1.cancelRequests = [] :=
  C8_no_deadline_never_fires
    (NoDeadlineReach.step (Op.enter 1 7) (by intro d now tk hx; cases hx)
      (NoDeadlineReach.base 0 0))

/-- C9: `expired` is true exactly in phase `TIMEOUT`, and the exit that
converts an observed cancellation into `TimeoutError` leaves the phase at
`TIMEOUT`, so `expired` still reports true afterwards. -/
theorem C9_expired_spec (s : Sys) :
    (Timeout.expired s = true ↔ s.tm._state = _State.TIMEOUT) ∧
    (s.tm._state = _State.TIMEOUT →
      (Timeout._do_exit true s).1.tm._state = _State.TIMEOUT ∧
      Timeout.expired (Timeout._do_exit true s).1 = true ∧
      (s.tm._task ≠ none →
        (Timeout._do_exit true s).2 = some Err.timeoutError)) := by
  constructor
  · simp [Timeout.expired]
  · intro hT
    have hs : (Timeout._do_exit true s).1.tm._state = _State.TIMEOUT := by
      rw [state_exit, if_pos ⟨rfl, hT⟩]
      exact hT
    refine ⟨hs, by simp [Timeout.expired, hs], ?_⟩
    intro htk
    obtain ⟨⟨dl, st, th, tk0⟩, sched, nid, cr⟩ := s
    simp only [] at hT htk
    subst hT
    cases tk0 with
    | none => exact absurd rfl htk
    | some t => simp [Timeout._do_exit]

theorem C9_expired_spec_witness :
    (Timeout.expired ⟨⟨some 5, _State.TIMEOUT, none, some 7⟩, [], 1, [7]⟩ = true ↔
      (⟨⟨some 5, _State.TIMEOUT, none, some 7⟩, [], 1, [7]⟩ : Sys).tm._state =
        _State.TIMEOUT) ∧
    Timeout.expired
      (Timeout._do_exit true ⟨⟨some 5, _State.TIMEOUT, none, some 7⟩, [], 1, [7]⟩).1 =
      true ∧
    (Timeout._do_exit true ⟨⟨some 5, _State.TIMEOUT, none, some 7⟩, [], 1, [7]⟩).2 =
      some Err.timeoutError :=
  ⟨(C9_expired_spec ⟨⟨some 5, _State.TIMEOUT, none, some 7⟩, [], 1, [7]⟩).1,
   ((C9_expired_spec ⟨⟨some 5, _State.TIMEOUT, none, some 7⟩, [], 1, [7]⟩).2 rfl).2.1,
   ((C9_expired_spec ⟨⟨some 5, _State.TIMEOUT, none, some 7⟩, [], 1, [7]⟩).2 rfl).2.2
     (by decide)⟩

/-- C10: before `enter`, nothing is ever scheduled: construction with a
deadline and `update` in `INIT` record the deadline but leave the
scheduled-firing slot empty and the loop schedule untouched. -/
theorem C10_no_firing_before_enter :
    (∀ (d now : ℚ) (tk : ℕ),
        (Timeout.init (some d) now tk).1.tm._state = _State.INIT ∧
        (Timeout.init (some d) now tk).1.tm._deadline = some d ∧
        (Timeout.init (some d) now tk).1.tm._timeout_handler = none ∧
        (Timeout.init (some d) now tk).1.loopSched = []) ∧
    (∀ s : Sys, Reachable s → s.tm._state = _State.INIT →
        s.tm._timeout_handler = none ∧ s.loopSched = [] ∧
        (∀ (d now : ℚ) (tk : ℕ),
            (Timeout.update d now tk s).1.tm._timeout_handler = none ∧
            (Timeout.update d now tk s).1.tm._deadline = some d ∧
            (Timeout.update d now tk s).1.loopSched = [])) := by
  constructor
  · intro d now tk
    simp [Timeout.init, Timeout.update]
  · intro s h hI
    have hInv := reachable_loopInv h
    have hth : s.tm._timeout_handler = none := by
      cases hth2 : s.tm._timeout_handler with
      | none => rfl
      | some id =>
        have hEN := (hInv.2.2 id hth2).1
        rw [hI] at hEN
        cases hEN
    have hn : s.loopSched = [] := sched_nil_of_handler_none hInv.1 hth
    refine ⟨hth, hn, ?_⟩
    intro d now tk
    obtain ⟨⟨dl, st, th, tk0⟩, sched, nid, cr⟩ := s
    simp only [] at hI hth hn
    subst hI hth hn
    simp [Timeout.update]

theorem C10_no_firing_before_enter_witness :
    (Timeout.init (some 5) 0 0).1.tm._timeout_handler = none ∧
    (Timeout.init (some 5) 0 0).1.loopSched = [] ∧
    (Timeout.update 9 0 0 (Timeout.init (some 5) 0 0).1).1.tm._timeout_handler = none ∧
    (Timeout.update 9 0 0 (Timeout.init (some 5) 0 0).1).1.tm._deadline = some 9 ∧
    (Timeout.update 9 0 0 (Timeout.init (some 5) 0 0).1).1.loopSched = [] :=
  ⟨(C10_no_firing_before_enter.1 5 0 0).2.2.1,
   (C10_no_firing_before_enter.1 5 0 0).2.2.2,
   (C10_no_firing_before_enter.2 (Timeout.init (some 5) 0 0).1
      (Reachable.base (some 5) 0 0) rfl).2.2 9 0 0 |>.1,
   (C10_no_firing_before_enter.2 (Timeout.init (some 5) 0 0).1
      (Reachable.base (some 5) 0 0) rfl).2.2 9 0 0 |>.2.1,
   (C10_no_firing_before_enter.2 (Timeout.init (some 5) 0 0).1
      (Reachable.base (some 5) 0 0) rfl).2.2 9 0 0 |>.2.2⟩
